import Mathlib

/-!
Verification of the identity-tracking memory pool (`MemPoolLimitUnique`)
and the three-point rendezvous lock (`ThreePointLock`) of the
`concurrency` package, via a shallow embedding of the Go code.

Modelling conventions:
- a Go byte slice is a `Buf`: the address of the first element of its
  backing array (`ptr`, the identity key used by `slicePtr`), its length,
  and the backing array contents (whose length is the slice capacity);
- a channel of capacity `n` is a FIFO list together with the capacity
  bound; a send on a full channel, or a receive on an empty one, yields
  the `block` outcome;
- a Go computation yields a `GoResult`: a value, a runtime panic, or a
  blocked channel operation;
- fresh heap allocation is modelled by a `nextPtr` counter: every new
  backing array receives a pointer value never used before.
-/

namespace Concurrency

/-- Outcome of running a fragment of Go code: a normal value, a runtime
panic, or a channel operation that would block the calling goroutine. -/
inductive GoResult (α : Type) where
  | ok (a : α)
  | panicked (msg : String)
  | block
  deriving DecidableEq, Repr

/-- A Go byte slice: identity pointer of the backing array's first
element, slice length, and backing array contents (capacity is the
backing array's length; the slice view is the first `len` bytes). -/
structure Buf where
  ptr : Nat
  len : Nat
  backing : List Nat
  deriving DecidableEq, Repr

/-- Capacity of a slice, `cap(elem)` in Go. -/
def Buf.cap (b : Buf) : Nat := b.backing.length

/-- Go's `make([]byte, size)` at a given fresh address: a zeroed slice
with `len = cap = size`. -/
def mkBuf (ptr size : Nat) : Buf := ⟨ptr, size, List.replicate size 0⟩

/-- Go's `copy(dst, src)`: overwrites the first `min |dst| |src|` bytes
of `dst` with those of `src` and returns the resulting contents. -/
def goCopy (dst src : List Nat) : List Nat :=
  src.take (min dst.length src.length) ++ dst.drop (min dst.length src.length)

/-- Helper function `slicePtr` of mempool.go: address of the first
element of a slice (`&elem[0]`); a runtime panic when the slice is
empty, since an empty slice has no first element. -/
def slicePtr (elem : Buf) : GoResult Nat :=
  if 0 < elem.len then .ok elem.ptr
  else .panicked "runtime error: index out of range"

/-- Lookup in the tracking map `map[uintptr]bool`. -/
def trackerLookup (t : List (Nat × Bool)) (k : Nat) : Option Bool :=
  match t with
  | [] => none
  | (k', v) :: rest => if k' = k then some v else trackerLookup rest k

/-- Insertion / update `t[k] = v` in the tracking map. -/
def trackerInsert (t : List (Nat × Bool)) (k : Nat) (v : Bool) :
    List (Nat × Bool) :=
  match t with
  | [] => [(k, v)]
  | (k', v') :: rest =>
    if k' = k then (k, v) :: rest else (k', v') :: trackerInsert rest k v

/-- Deletion `delete(t, k)` in the tracking map. -/
def trackerErase (t : List (Nat × Bool)) (k : Nat) : List (Nat × Bool) :=
  match t with
  | [] => []
  | (k', v) :: rest =>
    if k' = k then trackerErase rest k else (k', v) :: trackerErase rest k

/-- The identity-tracking bounded pool `MemPoolLimitUnique`: the bounded
channel of available buffers (as a FIFO list plus its capacity), the
identity-keyed tracking map, the configured initial element size, and
the fresh-address counter of the allocation model. -/
structure MemPoolLimitUnique where
  elements : List Buf
  capacity : Nat
  tracker : List (Nat × Bool)
  initialElementSize : Nat
  nextPtr : Nat
  deriving DecidableEq, Repr

/-- Construction loop of `NewMemPoolLimitUnique`: create `n` buffers of
the initial size, enqueue each and track it as non-taken. -/
def initElements : Nat → Nat → Nat → List Buf → List (Nat × Bool) →
    GoResult (List Buf × List (Nat × Bool) × Nat)
  | 0, _, ptr, elems, tr => .ok (elems, tr, ptr)
  | Nat.succ n, ies, ptr, elems, tr =>
    let elem := mkBuf ptr ies
    match slicePtr elem with
    | .ok k => initElements n ies (ptr + 1) (elems ++ [elem]) (trackerInsert tr k false)
    | .panicked m => .panicked m
    | .block => .block

/-- `NewMemPoolLimitUnique(n, initialElementSize)`. -/
def NewMemPoolLimitUnique (n initialElementSize : Nat) :
    GoResult MemPoolLimitUnique :=
  match initElements n initialElementSize 0 [] [] with
  | .ok (elems, tr, np) => .ok ⟨elems, n, tr, initialElementSize, np⟩
  | .panicked m => .panicked m
  | .block => .block

/-- `MemPoolLimitUnique.Get(size)`: dequeue a buffer (blocking when the
channel is empty); if its capacity is below `size`, drop its identity,
allocate a fresh buffer of size `size*2` and track it; mark the
(possibly new) buffer as taken; return it truncated to `size`. -/
def MemPoolLimitUnique.Get (p : MemPoolLimitUnique) (size : Nat) :
    GoResult (MemPoolLimitUnique × Buf) :=
  match p.elements with
  | [] => .block
  | elem :: rest =>
    if elem.cap < size then
      match slicePtr elem with
      | .panicked m => .panicked m
      | .block => .block
      | .ok oldPtr =>
        let tracker1 := trackerErase p.tracker oldPtr
        let newElem : Buf := mkBuf p.nextPtr (size * 2)
        match slicePtr newElem with
        | .panicked m => .panicked m
        | .block => .block
        | .ok newPtr =>
          let tracker2 := trackerInsert (trackerInsert tracker1 newPtr false) newPtr true
          .ok ({ p with elements := rest, tracker := tracker2, nextPtr := p.nextPtr + 1 },
               { newElem with len := size })
    else
      match slicePtr elem with
      | .panicked m => .panicked m
      | .block => .block
      | .ok ptr =>
        .ok ({ p with elements := rest, tracker := trackerInsert p.tracker ptr true },
             { elem with len := size })

/-- `MemPoolLimitUnique.Put(elem)`: restore the buffer to full capacity,
panic when its identity is untracked, mark it non-taken, and enqueue it
back only when it was taken (a duplicate `Put` is ignored). -/
def MemPoolLimitUnique.Put (p : MemPoolLimitUnique) (buf : Buf) :
    GoResult MemPoolLimitUnique :=
  let elem : Buf := { buf with len := buf.backing.length }
  match slicePtr elem with
  | .panicked m => .panicked m
  | .block => .block
  | .ok ptr =>
    match trackerLookup p.tracker ptr with
    | none => .panicked "cannot return untracked memory element to pool"
    | some taken =>
      let p1 := { p with tracker := trackerInsert p.tracker ptr false }
      if taken then
        if p1.elements.length < p1.capacity then
          .ok { p1 with elements := p1.elements ++ [elem] }
        else .block
      else .ok p1

/-- `MemPoolLimitUnique.Resize(elem, size)`: panic when the identity is
untracked; when capacity is short, allocate a fresh buffer of size
`size`, copy the contents over and re-register the identity as taken;
otherwise re-slice in place and mark the identity taken. -/
def MemPoolLimitUnique.Resize (p : MemPoolLimitUnique) (elem : Buf) (size : Nat) :
    GoResult (MemPoolLimitUnique × Buf) :=
  match slicePtr elem with
  | .panicked m => .panicked m
  | .block => .block
  | .ok ptr =>
    match trackerLookup p.tracker ptr with
    | none => .panicked "cannot resize untracked memory element"
    | some _ =>
      if elem.cap < size then
        let newElem : Buf :=
          ⟨p.nextPtr, size, goCopy (List.replicate size 0) (elem.backing.take elem.len)⟩
        match slicePtr newElem with
        | .panicked m => .panicked m
        | .block => .block
        | .ok newPtr =>
          .ok ({ p with tracker := trackerInsert (trackerErase p.tracker ptr) newPtr true,
                        nextPtr := p.nextPtr + 1 },
               newElem)
      else
        .ok ({ p with tracker := trackerInsert p.tracker ptr true },
             { elem with len := size })

/-- Errors of the three-point lock: the sentinel `ErrLockConfirmTimeout`
or an arbitrary error value produced by a caller-supplied hook. -/
inductive GoError where
  | errLockConfirmTimeout
  | custom (msg : String)
  deriving DecidableEq, Repr

/-- The sentinel `ErrLockConfirmTimeout` of the source. -/
def ErrLockConfirmTimeout : GoError := GoError.errLockConfirmTimeout

/-- The `ThreePointLock`: the capacity-1 `request` channel (FIFO list of
at most one token), the item count of the capacity-1 `done` channel, the
optional pre-lock and post-unlock hooks (modelled by the result each
would return when invoked), the optional timeout (in abstract time
units, `0` meaning no timeout, as in the source where the zero duration
disables the timeout), the backing pool, and the minimum element size.
The `confirm` channel is unbuffered and so carries no state. -/
structure ThreePointLock where
  request : List Buf
  done : Nat
  lockRequestFn : Option (Option GoError)
  unlockRequestFn : Option (Option GoError)
  timeout : Nat
  memPool : MemPoolLimitUnique
  minElementSize : Nat
  deriving DecidableEq, Repr

/-- Configuration being built by `NewThreePointLock` before the default
pool is filled in (`memPool = none` models the nil pointer). -/
structure TPLConfig where
  lockRequestFn : Option (Option GoError)
  unlockRequestFn : Option (Option GoError)
  timeout : Nat
  memPool : Option MemPoolLimitUnique
  minElementSize : Nat

/-- A functional option for the three-point lock constructor. -/
def ThreePointLockOption : Type := TPLConfig → TPLConfig

/-- `WithMemPool` option. -/
def WithMemPool (memPool : MemPoolLimitUnique) : ThreePointLockOption :=
  fun c => { c with memPool := some memPool }

/-- `WithLockRequestFn` option (the hook is modelled by its result). -/
def WithLockRequestFn (fn : Option GoError) : ThreePointLockOption :=
  fun c => { c with lockRequestFn := some fn }

/-- `WithUnlockRequestFn` option (the hook is modelled by its result). -/
def WithUnlockRequestFn (fn : Option GoError) : ThreePointLockOption :=
  fun c => { c with unlockRequestFn := some fn }

/-- `WithTimeout` option. -/
def WithTimeout (timeout : Nat) : ThreePointLockOption :=
  fun c => { c with timeout := timeout }

/-- `WithMinElementSize` option. -/
def WithMinElementSize (size : Nat) : ThreePointLockOption :=
  fun c => { c with minElementSize := size }

/-- `NewThreePointLock(options...)`: fresh channels, default minimum
element size 1, options applied in order, and — when no pool was
supplied — a private pool of a single buffer of the minimum size. -/
def NewThreePointLock (options : List ThreePointLockOption) :
    GoResult ThreePointLock :=
  let cfg := options.foldl (fun c opt => opt c)
    { lockRequestFn := none, unlockRequestFn := none, timeout := 0,
      memPool := none, minElementSize := 1 }
  match cfg.memPool with
  | some mp =>
    .ok { request := [], done := 0, lockRequestFn := cfg.lockRequestFn,
          unlockRequestFn := cfg.unlockRequestFn, timeout := cfg.timeout,
          memPool := mp, minElementSize := cfg.minElementSize }
  | none =>
    match NewMemPoolLimitUnique 1 cfg.minElementSize with
    | .ok mp =>
      .ok { request := [], done := 0, lockRequestFn := cfg.lockRequestFn,
            unlockRequestFn := cfg.unlockRequestFn, timeout := cfg.timeout,
            memPool := mp, minElementSize := cfg.minElementSize }
    | .panicked m => .panicked m
    | .block => .block

/-- Waiting phase of `Lock` after the request has been sent and the
pre-lock hook (if any) has succeeded. `confirmAt` abstracts the
environment: the time, counted from the start of the wait, at which a
worker's `ConfirmLockRequest` send would rendezvous with this receive
(`none` when no confirmation ever arrives). With no timeout the receive
blocks until that moment; with a timeout `T` the `select` takes the
confirmation when it arrives strictly before `T` and otherwise fires
the timer at time `T`, returns the token to the pool and reports
`ErrLockConfirmTimeout`. The returned `Nat` is the elapsed wait time. -/
def lockWait (t : ThreePointLock) (sem : Buf) (confirmAt : Option Nat) :
    GoResult (ThreePointLock × Option GoError × Nat) :=
  if t.timeout = 0 then
    match confirmAt with
    | some c => .ok (t, none, c)
    | none => .block
  else
    match confirmAt with
    | some c =>
      if c < t.timeout then .ok (t, none, c)
      else
        match t.memPool.Put sem with
        | .panicked m => .panicked m
        | .block => .block
        | .ok p2 => .ok ({ t with memPool := p2 }, some ErrLockConfirmTimeout, t.timeout)
    | none =>
      match t.memPool.Put sem with
      | .panicked m => .panicked m
      | .block => .block
      | .ok p2 => .ok ({ t with memPool := p2 }, some ErrLockConfirmTimeout, t.timeout)

/-- `ThreePointLock.Lock()`: draw a token of the pool's initial element
size, send it on the capacity-1 request channel, run the pre-lock hook
(on hook failure return the token to the pool and propagate the error),
then wait for confirmation as in `lockWait`. -/
def ThreePointLock.Lock (tpl : ThreePointLock) (confirmAt : Option Nat) :
    GoResult (ThreePointLock × Option GoError × Nat) :=
  match tpl.memPool.Get tpl.memPool.initialElementSize with
  | .panicked m => .panicked m
  | .block => .block
  | .ok (p1, sem) =>
    if tpl.request.length = 0 then
      let t1 : ThreePointLock := { tpl with memPool := p1, request := tpl.request ++ [sem] }
      match t1.lockRequestFn with
      | some (some e) =>
        match t1.memPool.Put sem with
        | .panicked m => .panicked m
        | .block => .block
        | .ok p2 => .ok ({ t1 with memPool := p2 }, some e, 0)
      | some none => lockWait t1 sem confirmAt
      | none => lockWait t1 sem confirmAt
    else .block

/-- `HasLockRequest()`: `len(tpl.request) > 0`. -/
def ThreePointLock.HasLockRequest (tpl : ThreePointLock) : Bool :=
  0 < tpl.request.length

/-- `ConsumeLockRequest()`: blocking receive from the request channel. -/
def ThreePointLock.ConsumeLockRequest (tpl : ThreePointLock) :
    GoResult (ThreePointLock × Buf) :=
  match tpl.request with
  | [] => .block
  | sem :: rest => .ok ({ tpl with request := rest }, sem)

/-- `HasUnlockRequest()`: `len(tpl.done) > 0`. -/
def ThreePointLock.HasUnlockRequest (tpl : ThreePointLock) : Bool :=
  0 < tpl.done

/-- `Release(sem)`: return the semaphore to the pool. -/
def ThreePointLock.Release (tpl : ThreePointLock) (sem : Buf) :
    GoResult ThreePointLock :=
  match tpl.memPool.Put sem with
  | .panicked m => .panicked m
  | .block => .block
  | .ok p => .ok { tpl with memPool := p }

/-- State invariant of the identity-tracking pool: every buffer waiting
in the available queue is tracked as not checked out. -/
def PoolInv (p : MemPoolLimitUnique) : Prop :=
  ∀ b ∈ p.elements, trackerLookup p.tracker b.ptr = some false

/-- State of a `ThreePointLock` after a failed `Lock` call (pre-lock
hook failure or confirmation timeout) that dequeued the buffer `e` from
a pool whose remaining queue was `rest`: the drawn token was sent on the
request channel and never retracted there, while the token itself was
returned to the pool (restored to full capacity, re-enqueued, and its
identity marked non-taken). -/
def lockFailState (tpl : ThreePointLock) (e : Buf) (rest : List Buf) : ThreePointLock :=
  { tpl with
      request := tpl.request ++ [{ e with len := tpl.memPool.initialElementSize }]
      memPool :=
        { tpl.memPool with
            elements := rest ++ [{ e with len := e.backing.length }]
            tracker := trackerInsert (trackerInsert tpl.memPool.tracker e.ptr true)
              e.ptr false } }

/-- What it means for a failed `Lock` not to have retracted its request:
a request is still pending, consuming it yields a token with the
identity of the drawn buffer `e`, and at the same time a further `Get`
of the configured size hands that very identity out again. -/
def requestNotRetracted (ies : Nat) (e : Buf) (tpl' : ThreePointLock) : Prop :=
  tpl'.HasLockRequest = true ∧
  (∃ tpl'' sem, tpl'.ConsumeLockRequest = .ok (tpl'', sem) ∧ sem.ptr = e.ptr) ∧
  (∃ p'' b, tpl'.memPool.Get ies = .ok (p'', b) ∧ b.ptr = e.ptr)

/-- Concrete pool used by witnesses: the result of
`NewMemPoolLimitUnique 1 1`. -/
def pW1 : MemPoolLimitUnique := ⟨[mkBuf 0 1], 1, [(0, false)], 1, 1⟩

/-- Concrete pool with its single buffer checked out, as after
`pW1.Get 1`. -/
def pG : MemPoolLimitUnique := ⟨[], 1, [(0, true)], 1, 1⟩

/-- Concrete pool with an empty queue, spare queue room and one
checked-out tracked buffer, used by the `Put` witness. -/
def pPutW : MemPoolLimitUnique := ⟨[], 2, [(0, true)], 1, 1⟩

/-- Concrete pool for the `Resize` prefix-preservation witness: one
checked-out buffer of capacity 2 holding bytes 5, 7. -/
def pResW : MemPoolLimitUnique := ⟨[], 1, [(1, true)], 2, 2⟩

/-- Concrete lock used by the timeout witnesses: empty channels, no
hooks, timeout 5, backed by `pW1`. -/
def tplW : ThreePointLock := ⟨[], 0, none, none, 5, pW1, 1⟩

/-- Concrete lock whose pre-lock hook fails, used by the hook-failure
witnesses. -/
def tplHW : ThreePointLock :=
  ⟨[], 0, some (some (GoError.custom "hook failed")), none, 0, pW1, 1⟩

/-! Basic lemmas about the tracking map. -/

theorem trackerLookup_insert_self (t : List (Nat × Bool)) (k : Nat) (v : Bool) :
    trackerLookup (trackerInsert t k v) k = some v := by
  induction t with
  | nil => simp [trackerInsert, trackerLookup]
  | cons hd tl ih =>
    obtain ⟨k', v'⟩ := hd
    by_cases h : k' = k
    · simp [trackerInsert, trackerLookup, h]
    · simp [trackerInsert, trackerLookup, h, ih]

theorem trackerLookup_insert_ne (t : List (Nat × Bool)) (k k' : Nat) (v : Bool)
    (h : k' ≠ k) :
    trackerLookup (trackerInsert t k v) k' = trackerLookup t k' := by
  induction t with
  | nil => simp [trackerInsert, trackerLookup, Ne.symm h]
  | cons hd tl ih =>
    obtain ⟨a, b⟩ := hd
    by_cases ha : a = k
    · subst ha
      simp [trackerInsert, trackerLookup, Ne.symm h]
    · simp [trackerInsert, trackerLookup, ha, ih]

theorem trackerLookup_erase_self (t : List (Nat × Bool)) (k : Nat) :
    trackerLookup (trackerErase t k) k = none := by
  induction t with
  | nil => simp [trackerErase, trackerLookup]
  | cons hd tl ih =>
    obtain ⟨a, b⟩ := hd
    by_cases ha : a = k
    · simpa [trackerErase, trackerLookup, ha] using ih
    · simpa [trackerErase, trackerLookup, ha] using ih

theorem trackerLookup_erase_ne (t : List (Nat × Bool)) (k k' : Nat) (h : k' ≠ k) :
    trackerLookup (trackerErase t k) k' = trackerLookup t k' := by
  induction t with
  | nil => simp [trackerErase, trackerLookup]
  | cons hd tl ih =>
    obtain ⟨a, b⟩ := hd
    by_cases ha : a = k
    · subst ha
      simp [trackerErase, trackerLookup, Ne.symm h, ih]
    · simp [trackerErase, trackerLookup, ha, ih]

theorem trackerInsert_self_eq (t : List (Nat × Bool)) (k : Nat) (v : Bool)
    (h : trackerLookup t k = some v) : trackerInsert t k v = t := by
  induction t with
  | nil => simp [trackerLookup] at h
  | cons hd tl ih =>
    obtain ⟨a, b⟩ := hd
    by_cases ha : a = k
    · subst ha
      simp [trackerLookup] at h
      simp [trackerInsert, h]
    · simp [trackerLookup, ha] at h
      simp [trackerInsert, ha, ih h]

/-! Equation lemmas for the pool operations under explicit state shapes. -/

theorem Get_inplace (p : MemPoolLimitUnique) (e : Buf) (rest : List Buf) (size : Nat)
    (he : p.elements = e :: rest) (hcap : ¬ e.cap < size) (hlen : 0 < e.len) :
    p.Get size = .ok
      ({ p with elements := rest, tracker := trackerInsert p.tracker e.ptr true },
       { e with len := size }) := by
  unfold MemPoolLimitUnique.Get
  rw [he]
  simp [hcap, slicePtr, hlen]

theorem Get_realloc (p : MemPoolLimitUnique) (e : Buf) (rest : List Buf) (size : Nat)
    (he : p.elements = e :: rest) (hcap : e.cap < size) (hlen : 0 < e.len) :
    p.Get size = .ok
      ({ p with
          elements := rest
          tracker := trackerInsert
            (trackerInsert (trackerErase p.tracker e.ptr) p.nextPtr false) p.nextPtr true
          nextPtr := p.nextPtr + 1 },
       ⟨p.nextPtr, size, List.replicate (size * 2) 0⟩) := by
  have hsz : 0 < size * 2 := by
    have : 0 < size := Nat.lt_of_le_of_lt (Nat.zero_le _) hcap
    omega
  unfold MemPoolLimitUnique.Get
  rw [he]
  simp [hcap, slicePtr, hlen, mkBuf, hsz]

theorem Put_untracked (p : MemPoolLimitUnique) (b : Buf)
    (hcap : 0 < b.backing.length)
    (hl : trackerLookup p.tracker b.ptr = none) :
    p.Put b = .panicked "cannot return untracked memory element to pool" := by
  unfold MemPoolLimitUnique.Put
  simp [slicePtr, hcap, hl]

theorem Put_free (p : MemPoolLimitUnique) (b : Buf)
    (hcap : 0 < b.backing.length)
    (hl : trackerLookup p.tracker b.ptr = some false) :
    p.Put b = .ok { p with tracker := trackerInsert p.tracker b.ptr false } := by
  unfold MemPoolLimitUnique.Put
  simp [slicePtr, hcap, hl]

theorem Put_taken (p : MemPoolLimitUnique) (b : Buf)
    (hcap : 0 < b.backing.length)
    (hl : trackerLookup p.tracker b.ptr = some true)
    (hroom : p.elements.length < p.capacity) :
    p.Put b = .ok
      { p with
          tracker := trackerInsert p.tracker b.ptr false
          elements := p.elements ++ [{ b with len := b.backing.length }] } := by
  unfold MemPoolLimitUnique.Put
  simp [slicePtr, hcap, hl, hroom]

theorem Resize_untracked (p : MemPoolLimitUnique) (elem : Buf) (size : Nat)
    (hlen : 0 < elem.len)
    (hl : trackerLookup p.tracker elem.ptr = none) :
    p.Resize elem size = .panicked "cannot resize untracked memory element" := by
  unfold MemPoolLimitUnique.Resize
  simp [slicePtr, hlen, hl]

theorem Resize_inplace (p : MemPoolLimitUnique) (elem : Buf) (size : Nat) (t : Bool)
    (hlen : 0 < elem.len)
    (hl : trackerLookup p.tracker elem.ptr = some t)
    (hcap : ¬ elem.cap < size) :
    p.Resize elem size = .ok
      ({ p with tracker := trackerInsert p.tracker elem.ptr true },
       { elem with len := size }) := by
  unfold MemPoolLimitUnique.Resize
  simp [slicePtr, hlen, hl, hcap]

theorem Resize_grow (p : MemPoolLimitUnique) (elem : Buf) (size : Nat) (t : Bool)
    (hlen : 0 < elem.len)
    (hl : trackerLookup p.tracker elem.ptr = some t)
    (hcap : elem.cap < size) :
    p.Resize elem size = .ok
      ({ p with
          tracker := trackerInsert (trackerErase p.tracker elem.ptr) p.nextPtr true
          nextPtr := p.nextPtr + 1 },
       ⟨p.nextPtr, size, goCopy (List.replicate size 0) (elem.backing.take elem.len)⟩) := by
  have hsz : 0 < size := Nat.lt_of_le_of_lt (Nat.zero_le _) hcap
  unfold MemPoolLimitUnique.Resize
  simp [slicePtr, hlen, hl, hcap, hsz]

theorem Put_taken_full (p : MemPoolLimitUnique) (b : Buf)
    (hcap : 0 < b.backing.length)
    (hl : trackerLookup p.tracker b.ptr = some true)
    (hroom : ¬ p.elements.length < p.capacity) :
    p.Put b = .block := by
  unfold MemPoolLimitUnique.Put
  simp [slicePtr, hcap, hl, hroom]

/-! Invariant lemmas. -/

theorem initElements_inv (n : Nat) :
    ∀ ies ptr elems tr es t np,
      (∀ b ∈ elems, trackerLookup tr b.ptr = some false ∧ b.ptr < ptr) →
      initElements n ies ptr elems tr = .ok (es, t, np) →
      ∀ b ∈ es, trackerLookup t b.ptr = some false := by
  induction n with
  | zero =>
    intro ies ptr elems tr es t np hinv hok
    simp [initElements] at hok
    obtain ⟨h1, h2, h3⟩ := hok
    subst h1; subst h2
    exact fun b hb => (hinv b hb).1
  | succ n ih =>
    intro ies ptr elems tr es t np hinv hok
    by_cases hies : 0 < ies
    · have hstep : initElements (n + 1) ies ptr elems tr =
          initElements n ies (ptr + 1) (elems ++ [mkBuf ptr ies])
            (trackerInsert tr ptr false) := by
        simp [initElements, slicePtr, mkBuf, hies]
      rw [hstep] at hok
      refine ih ies (ptr + 1) (elems ++ [mkBuf ptr ies]) (trackerInsert tr ptr false)
        es t np ?_ hok
      intro b hb
      rcases List.mem_append.mp hb with hmem | hmem
      · obtain ⟨hlk, hlt⟩ := hinv b hmem
        refine ⟨?_, by omega⟩
        rw [trackerLookup_insert_ne tr ptr b.ptr false (Nat.ne_of_lt hlt)]
        exact hlk
      · have hb' : b = mkBuf ptr ies := by simpa using hmem
        subst hb'
        exact ⟨trackerLookup_insert_self tr ptr false, by simp [mkBuf]⟩
    · have hpanic : initElements (n + 1) ies ptr elems tr =
          .panicked "runtime error: index out of range" := by
        simp [initElements, slicePtr, mkBuf, hies]
      rw [hpanic] at hok
      exact absurd hok (by simp)

theorem poolInv_new (n ies : Nat) (p : MemPoolLimitUnique)
    (hok : NewMemPoolLimitUnique n ies = .ok p) : PoolInv p := by
  unfold NewMemPoolLimitUnique at hok
  cases hinit : initElements n ies 0 [] [] with
  | ok res =>
    obtain ⟨es, tr, np⟩ := res
    rw [hinit] at hok
    simp only [GoResult.ok.injEq] at hok
    subst hok
    intro b hb
    exact initElements_inv n ies 0 [] [] es tr np (by simp) hinit b hb
  | panicked m => rw [hinit] at hok; exact absurd hok (by simp)
  | block => rw [hinit] at hok; exact absurd hok (by simp)

theorem poolInv_get (p : MemPoolLimitUnique) (size : Nat) (p' : MemPoolLimitUnique)
    (ret : Buf)
    (hnodup : (p.elements.map Buf.ptr).Nodup)
    (hbound : ∀ b ∈ p.elements, b.ptr < p.nextPtr)
    (hok : p.Get size = .ok (p', ret))
    (hinv : PoolInv p) :
    PoolInv p' ∧ trackerLookup p'.tracker ret.ptr = some true := by
  cases helems : p.elements with
  | nil =>
    unfold MemPoolLimitUnique.Get at hok
    rw [helems] at hok
    exact absurd hok (by simp)
  | cons e rest =>
    have hlen : 0 < e.len := by
      by_contra hneg
      unfold MemPoolLimitUnique.Get at hok
      rw [helems] at hok
      by_cases hcap : e.cap < size <;> simp [hcap, slicePtr, hneg] at hok
    have hnd : ∀ b ∈ rest, b.ptr ≠ e.ptr := by
      intro b hb
      rw [helems] at hnodup
      simp only [List.map_cons, List.nodup_cons] at hnodup
      intro hcontra
      exact hnodup.1 (hcontra ▸ List.mem_map_of_mem Buf.ptr hb)
    by_cases hcap : e.cap < size
    · rw [Get_realloc p e rest size helems hcap hlen] at hok
      simp only [GoResult.ok.injEq, Prod.mk.injEq] at hok
      obtain ⟨hp', hret⟩ := hok
      subst hp'; subst hret
      constructor
      · intro b hb
        simp only at hb ⊢
        have hbp : b.ptr < p.nextPtr := hbound b (by rw [helems]; exact List.mem_cons_of_mem e hb)
        rw [trackerLookup_insert_ne _ _ _ _ (Nat.ne_of_lt hbp),
            trackerLookup_insert_ne _ _ _ _ (Nat.ne_of_lt hbp),
            trackerLookup_erase_ne _ _ _ (hnd b hb)]
        exact hinv b (by rw [helems]; exact List.mem_cons_of_mem e hb)
      · exact trackerLookup_insert_self _ _ _
    · rw [Get_inplace p e rest size helems hcap hlen] at hok
      simp only [GoResult.ok.injEq, Prod.mk.injEq] at hok
      obtain ⟨hp', hret⟩ := hok
      subst hp'; subst hret
      constructor
      · intro b hb
        simp only at hb ⊢
        rw [trackerLookup_insert_ne _ _ _ _ (hnd b hb)]
        exact hinv b (by rw [helems]; exact List.mem_cons_of_mem e hb)
      · exact trackerLookup_insert_self _ _ _

theorem poolInv_put (p : MemPoolLimitUnique) (buf : Buf) (p' : MemPoolLimitUnique)
    (hok : p.Put buf = .ok p') (hinv : PoolInv p) : PoolInv p' := by
  have hcap : 0 < buf.backing.length := by
    by_contra hneg
    unfold MemPoolLimitUnique.Put at hok
    simp [slicePtr, hneg] at hok
  cases hl : trackerLookup p.tracker buf.ptr with
  | none =>
    rw [Put_untracked p buf hcap hl] at hok
    exact absurd hok (by simp)
  | some taken =>
    cases taken with
    | false =>
      rw [Put_free p buf hcap hl] at hok
      simp only [GoResult.ok.injEq] at hok
      subst hok
      intro b hb
      simp only at hb ⊢
      by_cases hbp : b.ptr = buf.ptr
      · rw [hbp]; exact trackerLookup_insert_self _ _ _
      · rw [trackerLookup_insert_ne _ _ _ _ hbp]; exact hinv b hb
    | true =>
      by_cases hroom : p.elements.length < p.capacity
      · rw [Put_taken p buf hcap hl hroom] at hok
        simp only [GoResult.ok.injEq] at hok
        subst hok
        intro b hb
        simp only at hb ⊢
        rcases List.mem_append.mp hb with hmem | hmem
        · by_cases hbp : b.ptr = buf.ptr
          · rw [hbp]; exact trackerLookup_insert_self _ _ _
          · rw [trackerLookup_insert_ne _ _ _ _ hbp]; exact hinv b hmem
        · have hb' : b = { buf with len := buf.backing.length } := by simpa using hmem
          subst hb'
          exact trackerLookup_insert_self _ _ _
      · rw [Put_taken_full p buf hcap hl hroom] at hok
        exact absurd hok (by simp)

/-! Claim theorems for the identity-tracking pool. -/

/-- C1: for every `Get(size)` on a `MemPoolLimitUnique` (with a buffer
`e` available at the head of the queue, having a first element and an
identity older than the allocation counter): when the dequeued buffer's
capacity is below `size`, a replacement of capacity `2*size` is
allocated, the old identity is removed from the tracking map and the
new one registered; in every case the returned buffer is marked checked
out in the tracking map and is a view of length exactly `size` with
capacity at least `size`. -/
theorem get_spec (p : MemPoolLimitUnique) (e : Buf) (rest : List Buf) (size : Nat)
    (he : p.elements = e :: rest) (hlen : 0 < e.len) (hfresh : e.ptr < p.nextPtr) :
    ∃ p' ret, p.Get size = .ok (p', ret) ∧
      ret.len = size ∧ size ≤ ret.cap ∧
      trackerLookup p'.tracker ret.ptr = some true ∧
      (e.cap < size →
        ret.cap = 2 * size ∧ ret.ptr = p.nextPtr ∧
        trackerLookup p'.tracker e.ptr = none) ∧
      (¬ e.cap < size → ret.ptr = e.ptr ∧ ret.backing = e.backing) := by
  by_cases hcap : e.cap < size
  · refine ⟨_, _, Get_realloc p e rest size he hcap hlen, rfl, ?_, ?_, ?_, ?_⟩
    · show size ≤ (List.replicate (size * 2) 0).length
      simp; omega
    · exact trackerLookup_insert_self _ _ _
    · intro _
      have hne : e.ptr ≠ p.nextPtr := Nat.ne_of_lt hfresh
      refine ⟨?_, rfl, ?_⟩
      · show (List.replicate (size * 2) 0).length = 2 * size
        simp; omega
      · show trackerLookup (trackerInsert (trackerInsert
            (trackerErase p.tracker e.ptr) p.nextPtr false) p.nextPtr true) e.ptr = none
        rw [trackerLookup_insert_ne _ _ _ _ hne, trackerLookup_insert_ne _ _ _ _ hne,
            trackerLookup_erase_self]
    · intro h; exact absurd hcap h
  · refine ⟨_, _, Get_inplace p e rest size he hcap hlen, rfl, ?_, ?_, ?_, ?_⟩
    · exact Nat.le_of_not_lt hcap
    · exact trackerLookup_insert_self _ _ _
    · intro h; exact absurd h hcap
    · intro _; exact ⟨rfl, rfl⟩

/-- Witness for C1 at a concrete pool, exercising the reallocation
path: `pW1` holds one buffer of capacity 1 and `Get 3` is requested. -/
theorem get_spec_witness :
    pW1.elements = mkBuf 0 1 :: [] ∧ 0 < (mkBuf 0 1).len ∧ (mkBuf 0 1).ptr < pW1.nextPtr ∧
    (∃ p' ret, pW1.Get 3 = .ok (p', ret) ∧
      ret.len = 3 ∧ 3 ≤ ret.cap ∧
      trackerLookup p'.tracker ret.ptr = some true ∧
      ((mkBuf 0 1).cap < 3 →
        ret.cap = 2 * 3 ∧ ret.ptr = pW1.nextPtr ∧
        trackerLookup p'.tracker (mkBuf 0 1).ptr = none) ∧
      (¬ (mkBuf 0 1).cap < 3 → ret.ptr = (mkBuf 0 1).ptr ∧ ret.backing = (mkBuf 0 1).backing)) :=
  ⟨rfl, by decide, by decide,
   get_spec pW1 (mkBuf 0 1) [] 3 rfl (by decide) (by decide)⟩

/-- C2: for every `Put(buf)` on a `MemPoolLimitUnique` (over a buffer
with a first element, with room in the bounded queue): the call panics
if and only if the buffer's identity is absent from the tracking map;
when tracked, `Put` restores the buffer to full capacity, marks it
not-checked-out, and enqueues it exactly when it was previously marked
checked out. -/
theorem put_spec (p : MemPoolLimitUnique) (buf : Buf)
    (hcap : 0 < buf.backing.length)
    (hroom : p.elements.length < p.capacity) :
    ((∃ m, p.Put buf = .panicked m) ↔ trackerLookup p.tracker buf.ptr = none) ∧
    (∀ t, trackerLookup p.tracker buf.ptr = some t →
      p.Put buf = .ok
        { p with
            tracker := trackerInsert p.tracker buf.ptr false
            elements := if t then p.elements ++ [{ buf with len := buf.backing.length }]
              else p.elements }) := by
  constructor
  · constructor
    · rintro ⟨m, hm⟩
      cases hl : trackerLookup p.tracker buf.ptr with
      | none => rfl
      | some t =>
        cases t with
        | false => rw [Put_free p buf hcap hl] at hm; exact absurd hm (by simp)
        | true => rw [Put_taken p buf hcap hl hroom] at hm; exact absurd hm (by simp)
    · intro hl
      exact ⟨_, Put_untracked p buf hcap hl⟩
  · intro t hl
    cases t with
    | false => rw [Put_free p buf hcap hl]; simp
    | true => rw [Put_taken p buf hcap hl hroom]; simp

/-- Witness for C2 at a concrete pool `pPutW` (one tracked checked-out
buffer, queue with spare room). -/
theorem put_spec_witness :
    0 < (mkBuf 0 1).backing.length ∧ pPutW.elements.length < pPutW.capacity ∧
    (((∃ m, pPutW.Put (mkBuf 0 1) = .panicked m) ↔
        trackerLookup pPutW.tracker (mkBuf 0 1).ptr = none) ∧
      (∀ t, trackerLookup pPutW.tracker (mkBuf 0 1).ptr = some t →
        pPutW.Put (mkBuf 0 1) = .ok
          { pPutW with
              tracker := trackerInsert pPutW.tracker (mkBuf 0 1).ptr false
              elements := if t then
                  pPutW.elements ++ [{ mkBuf 0 1 with len := (mkBuf 0 1).backing.length }]
                else pPutW.elements })) :=
  ⟨by decide, by decide, put_spec pPutW (mkBuf 0 1) (by decide) (by decide)⟩

/-- C3: `Put` is idempotent on release: for a tracked buffer already
marked not-checked-out (with a first element), a further `Put` does not
block, does not enqueue the buffer again, and leaves the pool state —
queue and tracking map — entirely unchanged. -/
theorem put_idempotent (p : MemPoolLimitUnique) (buf : Buf)
    (hcap : 0 < buf.backing.length)
    (hfree : trackerLookup p.tracker buf.ptr = some false) :
    p.Put buf = .ok p := by
  rw [Put_free p buf hcap hfree, trackerInsert_self_eq p.tracker buf.ptr false hfree]

/-- Witness for C3: a duplicate release into `pW1` returns the pool
unchanged. -/
theorem put_idempotent_witness :
    0 < (mkBuf 0 1).backing.length ∧
    trackerLookup pW1.tracker (mkBuf 0 1).ptr = some false ∧
    pW1.Put (mkBuf 0 1) = .ok pW1 :=
  ⟨by decide, by decide, put_idempotent pW1 (mkBuf 0 1) (by decide) (by decide)⟩

/-- C4: the pool invariant — every buffer in the available queue is
tracked not-checked-out — holds after construction and is preserved by
`Get` (under distinct queue identities below the allocation counter)
and by `Put`; moreover every buffer `Get` returns is marked checked out
in the resulting tracking map. -/
theorem pool_checkout_invariant :
    (∀ n ies p, NewMemPoolLimitUnique n ies = .ok p → PoolInv p) ∧
    (∀ p size p' ret, (MemPoolLimitUnique.elements p |>.map Buf.ptr).Nodup →
      (∀ b ∈ MemPoolLimitUnique.elements p, b.ptr < p.nextPtr) →
      MemPoolLimitUnique.Get p size = .ok (p', ret) → PoolInv p →
      PoolInv p' ∧ trackerLookup p'.tracker ret.ptr = some true) ∧
    (∀ p buf p', MemPoolLimitUnique.Put p buf = .ok p' → PoolInv p → PoolInv p') :=
  ⟨poolInv_new,
   fun p size p' ret hnodup hbound hok hinv => poolInv_get p size p' ret hnodup hbound hok hinv,
   fun p buf p' hok hinv => poolInv_put p buf p' hok hinv⟩

/-- Witness for C4 on the concrete cycle `pW1 → Get 1 → pG → Put → pW1`. -/
theorem pool_checkout_invariant_witness :
    PoolInv pW1 ∧
    (PoolInv pG ∧ trackerLookup pG.tracker (Buf.mk 0 1 [0]).ptr = some true) ∧
    PoolInv pW1 :=
  ⟨pool_checkout_invariant.1 1 1 pW1 (by decide),
   pool_checkout_invariant.2.1 pW1 1 pG (Buf.mk 0 1 [0]) (by decide)
     (by intro b hb; simp [pW1, mkBuf] at hb; subst hb; decide) (by decide)
     (pool_checkout_invariant.1 1 1 pW1 (by decide)),
   pool_checkout_invariant.2.2 pG (Buf.mk 0 1 [0]) pW1 (by decide)
     (pool_checkout_invariant.2.1 pW1 1 pG (Buf.mk 0 1 [0]) (by decide)
       (by intro b hb; simp [pW1, mkBuf] at hb; subst hb; decide) (by decide)
       (pool_checkout_invariant.1 1 1 pW1 (by decide))).1⟩

/-- C7 counterexample: `Resize` does not preserve the tracking flag's
value. In the concrete pool `pW1` the buffer with identity 0 is tracked
as not-checked-out (`some false`); resizing it in place to its own size
flips its flag to checked-out (`some true`), so the claim that `Resize`
"does not change the flag's value" fails at this input. -/
theorem resize_flag_counterexample :
    trackerLookup pW1.tracker (mkBuf 0 1).ptr = some false ∧
    pW1.Resize (mkBuf 0 1) 1 =
      .ok (⟨[mkBuf 0 1], 1, [(0, true)], 1, 1⟩, mkBuf 0 1) ∧
    trackerLookup [(0, true)] (mkBuf 0 1).ptr = some true := by
  decide

/-- C7 (amended): for every buffer with a first element, `Resize`
panics if and only if the buffer's identity is absent from the tracking
map; when the buffer is tracked, `Resize` succeeds and leaves the
resulting buffer's identity marked checked out — so the checked-out
state of an already-checked-out buffer is preserved, but a tracked
not-checked-out buffer is flipped to checked out rather than kept. -/
theorem resize_spec (p : MemPoolLimitUnique) (elem : Buf) (size : Nat)
    (hlen : 0 < elem.len) :
    ((∃ m, p.Resize elem size = .panicked m) ↔
      trackerLookup p.tracker elem.ptr = none) ∧
    (∀ t, trackerLookup p.tracker elem.ptr = some t →
      ∃ p' e', p.Resize elem size = .ok (p', e') ∧
        trackerLookup p'.tracker e'.ptr = some true) := by
  constructor
  · constructor
    · rintro ⟨m, hm⟩
      cases hl : trackerLookup p.tracker elem.ptr with
      | none => rfl
      | some t =>
        by_cases hcap : elem.cap < size
        · rw [Resize_grow p elem size t hlen hl hcap] at hm
          exact absurd hm (by simp)
        · rw [Resize_inplace p elem size t hlen hl hcap] at hm
          exact absurd hm (by simp)
    · intro hl
      exact ⟨_, Resize_untracked p elem size hlen hl⟩
  · intro t hl
    by_cases hcap : elem.cap < size
    · exact ⟨_, _, Resize_grow p elem size t hlen hl hcap,
        trackerLookup_insert_self _ _ _⟩
    · exact ⟨_, _, Resize_inplace p elem size t hlen hl hcap,
        trackerLookup_insert_self _ _ _⟩

/-- Witness for the amended C7 at the concrete pool `pResW`. -/
theorem resize_spec_witness :
    0 < (Buf.mk 1 2 [5, 7]).len ∧
    (((∃ m, pResW.Resize (Buf.mk 1 2 [5, 7]) 4 = .panicked m) ↔
        trackerLookup pResW.tracker (Buf.mk 1 2 [5, 7]).ptr = none) ∧
      (∀ t, trackerLookup pResW.tracker (Buf.mk 1 2 [5, 7]).ptr = some t →
        ∃ p' e', pResW.Resize (Buf.mk 1 2 [5, 7]) 4 = .ok (p', e') ∧
          trackerLookup p'.tracker e'.ptr = some true)) :=
  ⟨by decide, resize_spec pResW (Buf.mk 1 2 [5, 7]) 4 (by decide)⟩

/-- C8: growing a tracked, checked-out buffer of length `L` via
`Resize` to a size exceeding its capacity yields a buffer of the
requested length whose first `L` bytes equal the original content. -/
theorem resize_preserves_prefix (p : MemPoolLimitUnique) (b : Buf) (s : Nat)
    (htracked : trackerLookup p.tracker b.ptr = some true)
    (hlen : 0 < b.len) (hle : b.len ≤ b.backing.length)
    (hgrow : b.cap < s) :
    ∃ p' b', p.Resize b s = .ok (p', b') ∧ b'.len = s ∧
      b'.backing.take b.len = b.backing.take b.len := by
  refine ⟨_, _, Resize_grow p b s true hlen htracked hgrow, rfl, ?_⟩
  show (goCopy (List.replicate s 0) (b.backing.take b.len)).take b.len =
    b.backing.take b.len
  have hbl : (b.backing.take b.len).length = b.len := by
    simp [List.length_take]
    omega
  have hms : min (List.replicate s 0 : List Nat).length (b.backing.take b.len).length
      = b.len := by
    simp [hbl, List.length_replicate]
    have : b.backing.length < s := hgrow
    omega
  have htake : (b.backing.take b.len).take b.len = b.backing.take b.len := by
    rw [List.take_take]
    simp
  unfold goCopy
  rw [hms, htake, List.take_append_of_le_length (le_of_eq hbl.symm)]
  exact htake

/-- Witness for C8: growing the checked-out buffer `[5, 7]` to size 4
keeps its two original bytes as a prefix. -/
theorem resize_preserves_prefix_witness :
    trackerLookup pResW.tracker (Buf.mk 1 2 [5, 7]).ptr = some true ∧
    (∃ p' b', pResW.Resize (Buf.mk 1 2 [5, 7]) 4 = .ok (p', b') ∧
      b'.len = 4 ∧ b'.backing.take (Buf.mk 1 2 [5, 7]).len =
        (Buf.mk 1 2 [5, 7]).backing.take (Buf.mk 1 2 [5, 7]).len) :=
  ⟨by decide,
   resize_preserves_prefix pResW (Buf.mk 1 2 [5, 7]) 4 (by decide) (by decide)
     (by decide) (by decide)⟩

/-- C9: constructing a `MemPoolLimitUnique` with initial element size 0
panics for every pool size `n ≥ 1` — identity tracking takes the
address of the buffer's first element, which an empty buffer does not
have; accordingly `NewThreePointLock` defaults its minimum element size
to 1, with which its default pool construction succeeds. -/
theorem zero_element_size_panics :
    (∀ n, 1 ≤ n → ∃ m, NewMemPoolLimitUnique n 0 = .panicked m) ∧
    (∃ tpl, NewThreePointLock [] = .ok tpl ∧ tpl.minElementSize = 1 ∧
      NewMemPoolLimitUnique 1 tpl.minElementSize = .ok tpl.memPool) := by
  constructor
  · intro n hn
    cases n with
    | zero => exact absurd hn (by omega)
    | succ k =>
      refine ⟨"runtime error: index out of range", ?_⟩
      simp [NewMemPoolLimitUnique, initElements, slicePtr, mkBuf]
  · exact ⟨_, rfl, rfl, rfl⟩

/-- Witness for C9 at pool size 2. -/
theorem zero_element_size_panics_witness :
    (∃ m, NewMemPoolLimitUnique 2 0 = .panicked m) ∧
    (∃ tpl, NewThreePointLock [] = .ok tpl ∧ tpl.minElementSize = 1 ∧
      NewMemPoolLimitUnique 1 tpl.minElementSize = .ok tpl.memPool) :=
  ⟨zero_element_size_panics.1 2 (by decide), zero_element_size_panics.2⟩

/-! Equation lemmas for the failing paths of `Lock`. -/

theorem lock_hook_fail_eq (tpl : ThreePointLock) (e : Buf) (rest : List Buf)
    (er : GoError) (confirmAt : Option Nat)
    (hreq : tpl.request = [])
    (hhook : tpl.lockRequestFn = some (some er))
    (helems : tpl.memPool.elements = e :: rest)
    (hies : 0 < tpl.memPool.initialElementSize)
    (hecap : tpl.memPool.initialElementSize ≤ e.backing.length)
    (hlen : 0 < e.len)
    (hroom : tpl.memPool.elements.length ≤ tpl.memPool.capacity) :
    tpl.Lock confirmAt = .ok (lockFailState tpl e rest, some er, 0) := by
  have hget := Get_inplace tpl.memPool e rest tpl.memPool.initialElementSize helems
    (by show ¬ e.backing.length < tpl.memPool.initialElementSize; omega) hlen
  have hput := Put_taken
    { tpl.memPool with
        elements := rest
        tracker := trackerInsert tpl.memPool.tracker e.ptr true }
    { e with len := tpl.memPool.initialElementSize }
    (Nat.lt_of_lt_of_le hies hecap)
    (trackerLookup_insert_self tpl.memPool.tracker e.ptr true)
    (by
      show rest.length < tpl.memPool.capacity
      rw [helems] at hroom
      simp at hroom
      omega)
  unfold ThreePointLock.Lock
  rw [hget]
  simp only [hreq, hhook, List.length_nil]
  rw [hput]
  simp [lockFailState, hreq, hhook]

theorem lock_timeout_eq (tpl : ThreePointLock) (e : Buf) (rest : List Buf)
    (hreq : tpl.request = [])
    (hhook : tpl.lockRequestFn = none)
    (hT : 0 < tpl.timeout)
    (helems : tpl.memPool.elements = e :: rest)
    (hies : 0 < tpl.memPool.initialElementSize)
    (hecap : tpl.memPool.initialElementSize ≤ e.backing.length)
    (hlen : 0 < e.len)
    (hroom : tpl.memPool.elements.length ≤ tpl.memPool.capacity) :
    tpl.Lock none = .ok (lockFailState tpl e rest, some ErrLockConfirmTimeout, tpl.timeout) := by
  have hget := Get_inplace tpl.memPool e rest tpl.memPool.initialElementSize helems
    (by show ¬ e.backing.length < tpl.memPool.initialElementSize; omega) hlen
  have hput := Put_taken
    { tpl.memPool with
        elements := rest
        tracker := trackerInsert tpl.memPool.tracker e.ptr true }
    { e with len := tpl.memPool.initialElementSize }
    (Nat.lt_of_lt_of_le hies hecap)
    (trackerLookup_insert_self tpl.memPool.tracker e.ptr true)
    (by
      show rest.length < tpl.memPool.capacity
      rw [helems] at hroom
      simp at hroom
      omega)
  unfold ThreePointLock.Lock lockWait
  rw [hget]
  simp only [hreq, hhook, List.length_nil]
  rw [hput]
  simp [lockFailState, hreq, hhook, Nat.ne_of_gt hT]

theorem get_after_fail (tpl : ThreePointLock) (e : Buf) (rest : List Buf)
    (hies : 0 < tpl.memPool.initialElementSize)
    (hbufs : ∀ b ∈ tpl.memPool.elements,
      tpl.memPool.initialElementSize ≤ b.backing.length ∧ 0 < b.len)
    (helems : tpl.memPool.elements = e :: rest) :
    ∃ p'' b,
      (lockFailState tpl e rest).memPool.Get tpl.memPool.initialElementSize = .ok (p'', b) ∧
      p''.nextPtr = tpl.memPool.nextPtr ∧ (rest = [] → b.ptr = e.ptr) := by
  have hecap : tpl.memPool.initialElementSize ≤ e.backing.length :=
    (hbufs e (by rw [helems]; exact List.mem_cons_self e rest)).1
  cases rest with
  | nil =>
    have he : (lockFailState tpl e []).memPool.elements =
        { e with len := e.backing.length } :: [] := rfl
    have hget := Get_inplace (lockFailState tpl e []).memPool
      { e with len := e.backing.length } [] tpl.memPool.initialElementSize he
      (by show ¬ e.backing.length < tpl.memPool.initialElementSize; omega)
      (by show 0 < e.backing.length; omega)
    exact ⟨_, _, hget, rfl, fun _ => rfl⟩
  | cons r rs =>
    have hr := hbufs r (by rw [helems]; exact List.mem_cons_of_mem e (List.mem_cons_self r rs))
    have he : (lockFailState tpl e (r :: rs)).memPool.elements =
        r :: (rs ++ [{ e with len := e.backing.length }]) := rfl
    have hget := Get_inplace (lockFailState tpl e (r :: rs)).memPool
      r (rs ++ [{ e with len := e.backing.length }]) tpl.memPool.initialElementSize he
      (by
        show ¬ r.backing.length < tpl.memPool.initialElementSize
        have := hr.1
        omega)
      hr.2
    exact ⟨_, _, hget, rfl, fun h => absurd h (by simp)⟩

/-- C5: for a `ThreePointLock` with a non-zero timeout, no hook, a free
request slot and an available pool buffer of sufficient capacity: when
no confirmation ever arrives, `Lock` returns `ErrLockConfirmTimeout`
with an elapsed wait of no less than the configured timeout, having
first returned its token to the pool, so that a subsequent `Get` of the
same size succeeds without growing the pool (no new allocation). -/
theorem lock_timeout_spec (tpl : ThreePointLock) (e : Buf) (rest : List Buf)
    (hreq : tpl.request = [])
    (hhook : tpl.lockRequestFn = none)
    (hT : 0 < tpl.timeout)
    (helems : tpl.memPool.elements = e :: rest)
    (hies : 0 < tpl.memPool.initialElementSize)
    (hbufs : ∀ b ∈ tpl.memPool.elements,
      tpl.memPool.initialElementSize ≤ b.backing.length ∧ 0 < b.len)
    (hroom : tpl.memPool.elements.length ≤ tpl.memPool.capacity) :
    ∃ tpl' elapsed,
      tpl.Lock none = .ok (tpl', some ErrLockConfirmTimeout, elapsed) ∧
      tpl.timeout ≤ elapsed ∧
      ∃ p'' b, tpl'.memPool.Get tpl.memPool.initialElementSize = .ok (p'', b) ∧
        p''.nextPtr = tpl'.memPool.nextPtr := by
  have hecap : tpl.memPool.initialElementSize ≤ e.backing.length :=
    (hbufs e (by rw [helems]; exact List.mem_cons_self e rest)).1
  have hlen : 0 < e.len :=
    (hbufs e (by rw [helems]; exact List.mem_cons_self e rest)).2
  obtain ⟨p'', b, hget, hnp, _⟩ := get_after_fail tpl e rest hies hbufs helems
  exact ⟨lockFailState tpl e rest, tpl.timeout,
    lock_timeout_eq tpl e rest hreq hhook hT helems hies hecap hlen hroom,
    Nat.le_refl _, p'', b, hget, hnp⟩

/-- Witness for C5 at the concrete lock `tplW` (timeout 5, pool
`pW1`). -/
theorem lock_timeout_spec_witness :
    ∃ tpl' elapsed,
      tplW.Lock none = .ok (tpl', some ErrLockConfirmTimeout, elapsed) ∧
      tplW.timeout ≤ elapsed ∧
      ∃ p'' b, tpl'.memPool.Get tplW.memPool.initialElementSize = .ok (p'', b) ∧
        p''.nextPtr = tpl'.memPool.nextPtr :=
  lock_timeout_spec tplW (mkBuf 0 1) [] rfl rfl (by decide) rfl (by decide)
    (by intro b hb; simp [tplW, pW1, mkBuf] at hb; subst hb; exact ⟨by decide, by decide⟩)
    (by decide)

/-- C6: for a `ThreePointLock` whose configured pre-lock hook fails
with some error (with a free request slot and an available pool buffer
of sufficient capacity): `Lock` returns the drawn token to the pool —
re-enqueued at full capacity and marked not-checked-out — and returns
the hook's error verbatim without waiting for confirmation: the result
is the same for every possible confirmation schedule, with zero elapsed
wait. -/
theorem lock_hook_failure_spec (tpl : ThreePointLock) (e : Buf) (rest : List Buf)
    (er : GoError)
    (hreq : tpl.request = [])
    (hhook : tpl.lockRequestFn = some (some er))
    (helems : tpl.memPool.elements = e :: rest)
    (hies : 0 < tpl.memPool.initialElementSize)
    (hecap : tpl.memPool.initialElementSize ≤ e.backing.length)
    (hlen : 0 < e.len)
    (hroom : tpl.memPool.elements.length ≤ tpl.memPool.capacity) :
    ∀ confirmAt, ∃ tpl',
      tpl.Lock confirmAt = .ok (tpl', some er, 0) ∧
      tpl'.memPool.elements = rest ++ [{ e with len := e.backing.length }] ∧
      trackerLookup tpl'.memPool.tracker e.ptr = some false := by
  intro confirmAt
  refine ⟨lockFailState tpl e rest,
    lock_hook_fail_eq tpl e rest er confirmAt hreq hhook helems hies hecap hlen hroom,
    rfl, ?_⟩
  exact trackerLookup_insert_self _ _ _

/-- Witness for C6 at the concrete lock `tplHW` whose hook fails. -/
theorem lock_hook_failure_spec_witness :
    ∃ tpl',
      tplHW.Lock (some 0) = .ok (tpl', some (GoError.custom "hook failed"), 0) ∧
      tpl'.memPool.elements = [] ++ [{ mkBuf 0 1 with len := (mkBuf 0 1).backing.length }] ∧
      trackerLookup tpl'.memPool.tracker (mkBuf 0 1).ptr = some false :=
  lock_hook_failure_spec tplHW (mkBuf 0 1) [] (GoError.custom "hook failed")
    rfl rfl rfl (by decide) (by decide) (by decide) (by decide) (some 0)

/-- C10: when `Lock` fails — by pre-lock hook error or by confirmation
timeout — the token it already sent on the request channel is not
retracted: afterwards `HasLockRequest` still reports a pending request,
`ConsumeLockRequest` yields a token with the drawn buffer's identity,
and at the same time that identity has been returned to the pool and is
handed out again by a subsequent `Get`. -/
theorem lock_failure_request_not_retracted (tpl : ThreePointLock) (e : Buf)
    (hreq : tpl.request = [])
    (helems : tpl.memPool.elements = [e])
    (hies : 0 < tpl.memPool.initialElementSize)
    (hecap : tpl.memPool.initialElementSize ≤ e.backing.length)
    (hlen : 0 < e.len)
    (hroom : tpl.memPool.elements.length ≤ tpl.memPool.capacity) :
    (∀ er confirmAt, tpl.lockRequestFn = some (some er) →
      ∃ tpl', tpl.Lock confirmAt = .ok (tpl', some er, 0) ∧
        requestNotRetracted tpl.memPool.initialElementSize e tpl') ∧
    (tpl.lockRequestFn = none → 0 < tpl.timeout →
      ∃ tpl', tpl.Lock none = .ok (tpl', some ErrLockConfirmTimeout, tpl.timeout) ∧
        requestNotRetracted tpl.memPool.initialElementSize e tpl') := by
  have hbufs : ∀ b ∈ tpl.memPool.elements,
      tpl.memPool.initialElementSize ≤ b.backing.length ∧ 0 < b.len := by
    intro b hb
    rw [helems] at hb
    have hb' : b = e := by simpa using hb
    subst hb'
    exact ⟨hecap, hlen⟩
  have hnr : requestNotRetracted tpl.memPool.initialElementSize e (lockFailState tpl e []) := by
    obtain ⟨p'', b, hget, _, hptr⟩ := get_after_fail tpl e [] hies hbufs helems
    refine ⟨?_, ?_, p'', b, hget, hptr rfl⟩
    · simp [lockFailState, ThreePointLock.HasLockRequest, hreq]
    · refine ⟨{ lockFailState tpl e [] with request := [] },
        { e with len := tpl.memPool.initialElementSize }, ?_, rfl⟩
      unfold ThreePointLock.ConsumeLockRequest
      simp [lockFailState, hreq]
  constructor
  · intro er confirmAt hhook
    exact ⟨lockFailState tpl e [],
      lock_hook_fail_eq tpl e [] er confirmAt hreq hhook helems hies hecap hlen hroom, hnr⟩
  · intro hhook hT
    exact ⟨lockFailState tpl e [],
      lock_timeout_eq tpl e [] hreq hhook hT helems hies hecap hlen hroom, hnr⟩

/-- Witness for C10 at the concrete lock `tplW`, exercising the timeout
path of the statement. -/
theorem lock_failure_request_not_retracted_witness :
    (∀ er confirmAt, tplW.lockRequestFn = some (some er) →
      ∃ tpl', tplW.Lock confirmAt = .ok (tpl', some er, 0) ∧
        requestNotRetracted tplW.memPool.initialElementSize (mkBuf 0 1) tpl') ∧
    (tplW.lockRequestFn = none → 0 < tplW.timeout →
      ∃ tpl', tplW.Lock none = .ok (tpl', some ErrLockConfirmTimeout, tplW.timeout) ∧
        requestNotRetracted tplW.memPool.initialElementSize (mkBuf 0 1) tpl') :=
  lock_failure_request_not_retracted tplW (mkBuf 0 1) rfl rfl (by decide) (by decide)
    (by decide) (by decide)

end Concurrency
